import Mathlib

/-!
Verification of the chat-session backend in `cloudflare-workers/worker.js`:
the conversation store (FIFO-capped message log over a key-value store),
the fixed-window rate limiter, the input validator, the prompt builder for
the upstream completion API, and the `sendMessage` orchestration.

The JavaScript is shallowly embedded: the two Cloudflare KV namespaces
(`CHAT_DB`, `RATE_LIMIT`) become explicit state values threaded through the
functions, JSON-stringified records become typed values, timestamps become
natural-number instants, and the upstream HTTP call becomes an oracle
parameter whose invocations are logged.
-/

namespace Worker

/-- A stored chat message (the object persisted under `msg:<conv>:<id>`).
`timestamp` is an instant (the JS code stores an ISO string and compares via
`new Date`); `model` is `null` for user messages; `tokens` a count. -/
structure Message where
  id : String
  content : String
  role : String
  timestamp : Nat
  conversationId : String
  model : Option String
  tokens : Nat
  deriving Repr, DecidableEq

/-- The `CHAT_DB` KV namespace. Message-record keys (`msg:...`) hold
JSON-encoded `Message` objects and list keys (`conv:...`) hold JSON id
arrays; since the two key families are disjoint by prefix we model the
namespace as two partial maps keyed by the full key string. -/
structure ChatDB where
  recs : String → Option Message
  lists : String → Option (List String)

/-- The empty `CHAT_DB` state. -/
def emptyDB : ChatDB := ⟨fun _ => none, fun _ => none⟩

/-- Message record key: `msg:<conversationId>:<messageId>`. -/
def msgKey (conversationId id : String) : String :=
  "msg:" ++ conversationId ++ ":" ++ id

/-- Conversation id-list key: `conv:<conversationId>`. -/
def convKey (conversationId : String) : String :=
  "conv:" ++ conversationId

/-- `CHAT_DB.put` on a message-record key. -/
def ChatDB.putRec (db : ChatDB) (k : String) (m : Message) : ChatDB :=
  { db with recs := fun k' => if k' = k then some m else db.recs k' }

/-- `CHAT_DB.delete` on a message-record key. -/
def ChatDB.delRec (db : ChatDB) (k : String) : ChatDB :=
  { db with recs := fun k' => if k' = k then none else db.recs k' }

/-- `CHAT_DB.put` on a conversation id-list key. -/
def ChatDB.putList (db : ChatDB) (k : String) (l : List String) : ChatDB :=
  { db with lists := fun k' => if k' = k then some l else db.lists k' }

/-- `CHAT_DB.delete` on a conversation id-list key. -/
def ChatDB.delList (db : ChatDB) (k : String) : ChatDB :=
  { db with lists := fun k' => if k' = k then none else db.lists k' }

/-- `saveMessage(env, message)`: persists the record, appends the id to the
conversation's id-list, evicts the oldest id (and deletes its record) when
the list would exceed 100 entries, then writes the list back. -/
def saveMessage (db : ChatDB) (message : Message) : ChatDB :=
  let key := msgKey message.conversationId message.id
  let db1 := db.putRec key message
  let listKey := convKey message.conversationId
  let messageIds := (db1.lists listKey).getD []
  let messageIds := messageIds ++ [message.id]
  if messageIds.length > 100 then
    let removedId := messageIds.headD ""
    let rest := messageIds.tail
    let db2 := db1.delRec (msgKey message.conversationId removedId)
    db2.putList listKey rest
  else
    db1.putList listKey messageIds

/-- `getConversationMessages(env, conversationId)`: reads the id-list
(absent list means the empty history), looks up each referenced record,
silently skips ids whose record is missing, and sorts the result by
timestamp. -/
def getConversationMessages (db : ChatDB) (conversationId : String) : List Message :=
  match db.lists (convKey conversationId) with
  | none => []
  | some ids =>
      let messages := ids.filterMap fun id => db.recs (msgKey conversationId id)
      messages.mergeSort fun a b => a.timestamp ≤ b.timestamp

/-- `clearConversationMessages(env, conversationId)`: when an id-list
exists, deletes every referenced record and then the list itself;
otherwise does nothing. -/
def clearConversationMessages (db : ChatDB) (conversationId : String) : ChatDB :=
  match db.lists (convKey conversationId) with
  | none => db
  | some ids =>
      let db1 := ids.foldl (fun d id => d.delRec (msgKey conversationId id)) db
      db1.delList (convKey conversationId)

/-- `estimateTokens(text)`: `Math.ceil(text.length / 1.5)`, as a natural
number ceiling of `2·len/3`. -/
def estimateTokens (text : String) : Nat :=
  (2 * text.length + 2) / 3

/-! ## Rate limiter (`checkRateLimit`, over the `RATE_LIMIT` KV namespace) -/

/-- A `RATE_LIMIT` entry: the stored counter plus the expiry instant that
the `expirationTtl` option attached to the `put` that wrote it. -/
structure RLEntry where
  count : Nat
  expiresAt : Nat
  deriving Repr, DecidableEq

/-- The `RATE_LIMIT` KV namespace with fault flags: `getOk`/`putOk` say
whether the respective operation succeeds (an unreachable store throws,
which the embedding routes to the `catch` branch). -/
structure RLEnv where
  data : String → Option RLEntry
  getOk : Bool
  putOk : Bool

/-- A healthy, empty `RATE_LIMIT` namespace. -/
def emptyRL : RLEnv := ⟨fun _ => none, true, true⟩

/-- TTL-respecting read: a stored entry is visible only before it
expires. -/
def RLEnv.read (env : RLEnv) (now : Nat) (k : String) : Option Nat :=
  match env.data k with
  | some e => if now < e.expiresAt then some e.count else none
  | none => none

/-- Rate counter key: `rate:<clientIP>`. -/
def rateKey (clientIP : String) : String := "rate:" ++ clientIP

/-- Result shape of `checkRateLimit`: the JS function returns
`{allowed, remaining}` on success, `{allowed, resetTime}` on rejection and
bare `{allowed: true}` from the catch branch, so the two numeric fields are
optional. -/
structure RateLimitResult where
  allowed : Bool
  remaining : Option Nat
  resetTime : Option Nat
  deriving Repr, DecidableEq

/-- `checkRateLimit(env, clientIP)` at instant `now`: reads the counter
(0 when absent/expired), rejects with `resetTime = window` when the count
has reached the cap of 30, otherwise increments and stores the counter with
a fresh 60-unit TTL; any store failure is caught and the request allowed. -/
def checkRateLimit (env : RLEnv) (now : Nat) (clientIP : String) :
    RateLimitResult × RLEnv :=
  let key := rateKey clientIP
  let limit : Nat := 30
  let window : Nat := 60
  if env.getOk then
    let count := (env.read now key).getD 0
    if count ≥ limit then
      (⟨false, none, some window⟩, env)
    else
      if env.putOk then
        (⟨true, some (limit - count - 1), none⟩,
         { env with data := fun k' =>
             if k' = key then some ⟨count + 1, now + window⟩ else env.data k' })
      else
        (⟨true, none, none⟩, env)
  else
    (⟨true, none, none⟩, env)

/-- Run a sequence of `checkRateLimit` calls at the given instants for one
client, collecting the results and threading the store state. -/
def runCalls (env : RLEnv) (clientIP : String) : List Nat → List RateLimitResult × RLEnv
  | [] => ([], env)
  | t :: ts =>
      let (r, env1) := checkRateLimit env t clientIP
      let (rs, env2) := runCalls env1 clientIP ts
      (r :: rs, env2)

/-! ## Input validation (`validateMessageInput`) -/

/-- `sendMessage` input after GraphQL default application. `message` and
`conversationId` are non-null strings (schema `String!`/`ID!`; the JS
falsy test on them fires exactly on the empty string); `temperature` and
`maxTokens` stay optional because an explicit `null` passes the schema, and
the JS truthiness guard also skips the range check at the value 0. -/
structure SendMessageInput where
  message : String
  conversationId : String
  model : String
  temperature : Option Rat
  maxTokens : Option Int
  deriving Repr, DecidableEq

/-- Result of `validateMessageInput`. -/
structure ValidationResult where
  valid : Bool
  error : Option String
  deriving Repr, DecidableEq

/-- `validateMessageInput(input)`: empty message, over-long message,
empty conversation id, then truthiness-guarded range checks on
`temperature` and `maxTokens`. -/
def validateMessageInput (input : SendMessageInput) : ValidationResult :=
  if input.message = "" then
    ⟨false, some "消息内容不能为空"⟩
  else if input.message.length > 2000 then
    ⟨false, some "消息长度不能超过2000字符"⟩
  else if input.conversationId = "" then
    ⟨false, some "会话ID不能为空"⟩
  else if (match input.temperature with
           | some t => decide (t ≠ 0 ∧ (t < 0 ∨ t > 2))
           | none => false) then
    ⟨false, some "温度参数必须在0-2之间"⟩
  else if (match input.maxTokens with
           | some n => decide (n ≠ 0 ∧ (n < 1 ∨ n > 4000))
           | none => false) then
    ⟨false, some "最大token数必须在1-4000之间"⟩
  else
    ⟨true, none⟩

/-! ## Model gateway (`callDeepSeekAPI`) -/

/-- One entry of the `messages` array sent to the completion endpoint. -/
structure ChatMsg where
  role : String
  content : String
  deriving Repr, DecidableEq

/-- The upstream `usage` object (snake_case fields as in the API). -/
structure DSUsage where
  prompt_tokens : Nat
  completion_tokens : Nat
  total_tokens : Nat
  deriving Repr, DecidableEq

/-- Parsed upstream response as `callDeepSeekAPI` returns it:
`{content, usage}` with `usage` possibly absent. -/
structure DSResponse where
  content : String
  usage : Option DSUsage
  deriving Repr, DecidableEq

/-- The request body `callDeepSeekAPI` posts to the completion endpoint. -/
structure DSRequest where
  model : String
  messages : List ChatMsg
  temperature : Option Rat
  max_tokens : Option Int
  deriving Repr, DecidableEq

/-- The fixed system instruction prepended to every upstream prompt. -/
def systemPrompt : String :=
  "你是一个友善、有帮助的AI助手。请用中文回答问题，保持回答准确、简洁且有用。"

/-- JavaScript `Array.prototype.slice(-n)`: the suffix of the last `n`
elements (the whole array when it is shorter than `n`). -/
def lastN (n : Nat) (l : List α) : List α :=
  l.drop (l.length - n)

/-- The `messages` array built by `callDeepSeekAPI`: the fixed system
instruction, then `history.slice(-20)` with roles lower-cased, then the
current user message. -/
def buildMessages (message : String) (history : List Message) : List ChatMsg :=
  ⟨"system", systemPrompt⟩ ::
    ((lastN 20 history).map fun m => ⟨m.role.toLower, m.content⟩) ++
      [⟨"user", message⟩]

/-- The full request body assembled by `callDeepSeekAPI`. -/
def buildDSRequest (message : String) (history : List Message) (model : String)
    (temperature : Option Rat) (maxTokens : Option Int) : DSRequest :=
  ⟨model, buildMessages message history, temperature, maxTokens⟩

/-! ## `sendMessage` orchestration -/

/-- The `usage` object of a successful `sendMessage` response (camelCase,
as the GraphQL layer re-exposes it). -/
structure Usage where
  promptTokens : Nat
  completionTokens : Nat
  totalTokens : Nat
  deriving Repr, DecidableEq

/-- The GraphQL `SendMessageResponse` shape. -/
structure SendMessageResult where
  success : Bool
  message : Option Message
  error : Option String
  usage : Option Usage
  deriving Repr, DecidableEq

/-- Combined worker state: the two KV namespaces. -/
structure SendState where
  chat : ChatDB
  rl : RLEnv

/-- The `sendMessage` resolver. `now` stands for `Date.now`, `userId` and
`aiId` for the two generated message ids, and `api` for the upstream HTTP
call (an `Except`-valued oracle; a thrown upstream error lands in the
resolver's `catch`). Besides the response and the new state it returns the
list of requests actually posted upstream, so that "no network call
occurred" is expressible. Order of effects, as in the source: rate-limit
check first, then input validation, then history read, then user-message
save, then the upstream call, then assistant-message save. -/
def sendMessage (st : SendState) (clientIP : String) (now : Nat)
    (input : SendMessageInput) (userId aiId : String)
    (api : DSRequest → Except String DSResponse) :
    SendMessageResult × SendState × List DSRequest :=
  let rl := (checkRateLimit st.rl now clientIP).1
  let rlEnv := (checkRateLimit st.rl now clientIP).2
  if !rl.allowed then
    (⟨false, none, some "请求过于频繁", none⟩, ⟨st.chat, rlEnv⟩, [])
  else
    let validation := validateMessageInput input
    if !validation.valid then
      (⟨false, none, validation.error, none⟩, ⟨st.chat, rlEnv⟩, [])
    else
      let conversationHistory := getConversationMessages st.chat input.conversationId
      let userMessage : Message :=
        ⟨userId, input.message, "USER", now, input.conversationId, none,
          estimateTokens input.message⟩
      let chat1 := saveMessage st.chat userMessage
      let req := buildDSRequest input.message conversationHistory input.model
        input.temperature input.maxTokens
      match api req with
      | .error _ =>
          (⟨false, none, some "服务暂时不可用，请稍后重试", none⟩,
           ⟨chat1, rlEnv⟩, [req])
      | .ok resp =>
          let aiMessage : Message :=
            ⟨aiId, resp.content, "ASSISTANT", now, input.conversationId,
              some input.model, ((resp.usage.map fun u => u.completion_tokens).getD 0)⟩
          let chat2 := saveMessage chat1 aiMessage
          (⟨true, some aiMessage, none,
            resp.usage.map fun u => ⟨u.prompt_tokens, u.completion_tokens, u.total_tokens⟩⟩,
           ⟨chat2, rlEnv⟩, [req])

/-! ## Derived model: the retained window of a capped conversation -/

/-- The retained message window after one more append, mirroring the
eviction branch of `saveMessage`: push the new message, drop the oldest
when the id-list would exceed 100 entries. -/
def stepKept (kept : List Message) (m : Message) : List Message :=
  if kept.length + 1 > 100 then kept.tail ++ [m] else kept ++ [m]

/-- The retained window after a sequence of appends. -/
def keptAfter (kept : List Message) : List Message → List Message
  | [] => kept
  | m :: rest => keptAfter (stepKept kept m) rest

/-- State invariant tying a `CHAT_DB` state to the retained window of one
conversation: the id-list holds exactly the window's ids (in order), and a
record exists under `msg:<c>:<id>` exactly for the window's messages. -/
def ConvInv (c : String) (kept : List Message) (db : ChatDB) : Prop :=
  (db.lists (convKey c)).getD [] = kept.map (fun m => m.id) ∧
  ∀ id : String, db.recs (msgKey c id) = kept.find? (fun m => m.id == id)

/-! ## Concrete fixtures -/

/-- `i`-th message of the C1 scenario. -/
def mkMsg (i : Nat) : Message :=
  ⟨"m" ++ toString i, "c" ++ toString i, "USER", i, "conv1", none, 1⟩

/-- 101 messages appended to one conversation. -/
def msgs101 : List Message := (List.range 101).map mkMsg

/-- `i`-th history message of the C3 scenario. -/
def mkHist (i : Nat) : Message :=
  ⟨"h" ++ toString i, "t" ++ toString i, "USER", i, "cv", none, 0⟩

/-- A 25-message conversation history. -/
def hist25 : List Message := (List.range 25).map mkHist

/-- An upstream stub that always answers `"ok"` and omits usage. -/
def okApi : DSRequest → Except String DSResponse :=
  fun _ => Except.ok ⟨"ok", none⟩

/-- Valid input whose model string is not a DeepSeek model identifier and
whose `maxTokens` is 0 (outside `[1,4000]`). -/
def badRangeInput : SendMessageInput :=
  ⟨"hi", "cv", "gpt-4o", some (mkRat 7 10), some 0⟩

/-- Input whose message has 2001 characters (fails validation). -/
def overlongInput : SendMessageInput :=
  ⟨String.mk (List.replicate 2001 'a'), "cv", "deepseek-chat", none, none⟩

/-- A plain valid input. -/
def okInput : SendMessageInput :=
  ⟨"hi", "cv", "deepseek-chat", none, none⟩

/-- A store state whose id-list for conversation `cv` references one id
(`"x"`) with no backing record. -/
def danglingDB : ChatDB :=
  ((emptyDB.putList (convKey "cv") ["a", "b", "x"]).putRec
      (msgKey "cv" "a") ⟨"a", "one", "USER", 5, "cv", none, 1⟩).putRec
    (msgKey "cv" "b") ⟨"b", "two", "ASSISTANT", 3, "cv", none, 1⟩

/-! ## General lemmas about the store operations -/

theorem foldl_delRec_lists (c : String) (ids : List String) (db : ChatDB) :
    (ids.foldl (fun d id => d.delRec (msgKey c id)) db).lists = db.lists := by
  induction ids generalizing db with
  | nil => rfl
  | cons i is ih => simpa [ChatDB.delRec] using ih _

theorem clear_lists_self (db : ChatDB) (c : String) :
    (clearConversationMessages db c).lists (convKey c) = none := by
  unfold clearConversationMessages
  cases h : db.lists (convKey c) with
  | none => exact h
  | some ids => simp [ChatDB.delList, foldl_delRec_lists]

/-- C9: `read` on a conversation id for which no id-list is stored returns
the empty sequence (and, the embedding being total, raises no error). -/
theorem read_unknown_conversation (db : ChatDB) (c : String)
    (h : db.lists (convKey c) = none) : getConversationMessages db c = [] := by
  simp [getConversationMessages, h]

theorem read_unknown_conversation_witness :
    getConversationMessages emptyDB "nope" = [] :=
  read_unknown_conversation emptyDB "nope" rfl

/-- C8: for every prior state, `clear` followed by `read` yields the empty
sequence; `clear` is idempotent; and clearing an unknown (or already
cleared) conversation is a no-op that succeeds. -/
theorem clear_then_read_empty (db : ChatDB) (c : String) :
    getConversationMessages (clearConversationMessages db c) c = [] ∧
    clearConversationMessages (clearConversationMessages db c) c =
      clearConversationMessages db c ∧
    (db.lists (convKey c) = none → clearConversationMessages db c = db) := by
  have h := clear_lists_self db c
  have noop : ∀ db' : ChatDB, db'.lists (convKey c) = none →
      clearConversationMessages db' c = db' := by
    intro db' h0
    unfold clearConversationMessages
    rw [h0]
  exact ⟨by simp [getConversationMessages, h], noop _ h, noop db⟩

theorem clear_then_read_empty_witness :
    getConversationMessages (clearConversationMessages danglingDB "cv") "cv" = [] ∧
    clearConversationMessages emptyDB "cv" = emptyDB :=
  ⟨(clear_then_read_empty danglingDB "cv").1,
   (clear_then_read_empty emptyDB "cv").2.2 rfl⟩

/-- C10: when the id-list exists, `read` returns a permutation of exactly
those referenced messages whose records exist (missing ids silently
skipped), sorted by timestamp. -/
theorem read_skips_missing_records (db : ChatDB) (c : String) (ids : List String)
    (h : db.lists (convKey c) = some ids) :
    (getConversationMessages db c).Perm
      (ids.filterMap fun id => db.recs (msgKey c id)) ∧
    List.Pairwise (fun a b => a.timestamp ≤ b.timestamp)
      (getConversationMessages db c) := by
  simp only [getConversationMessages, h]
  constructor
  · exact List.mergeSort_perm _ _
  · have hs := @List.sorted_mergeSort Message
      (fun a b : Message => decide (a.timestamp ≤ b.timestamp))
      (fun a b c hab hbc => by
        simp only [decide_eq_true_eq] at *
        omega)
      (fun a b => by
        simp only [Bool.or_eq_true, decide_eq_true_eq]
        omega)
      (ids.filterMap fun id => db.recs (msgKey c id))
    exact hs.imp (by simp)

theorem read_skips_missing_records_witness :
    (getConversationMessages danglingDB "cv").Perm
      (["a", "b", "x"].filterMap fun id => danglingDB.recs (msgKey "cv" id)) ∧
    List.Pairwise (fun a b => a.timestamp ≤ b.timestamp)
      (getConversationMessages danglingDB "cv") :=
  read_skips_missing_records danglingDB "cv" ["a", "b", "x"] (by decide)

/-- C6: when the rate-counter store is unreachable, `checkRateLimit` fails
open: a failing `get` yields `allowed = true`, and a failing `put` (which
is only attempted while the count is below the cap) also yields
`allowed = true`. -/
theorem rate_limit_fails_open (env : RLEnv) (now : Nat) (ip : String) :
    (env.getOk = false → (checkRateLimit env now ip).1.allowed = true) ∧
    (env.putOk = false → (env.read now (rateKey ip)).getD 0 < 30 →
      (checkRateLimit env now ip).1.allowed = true) := by
  constructor
  · intro hg
    simp [checkRateLimit, hg]
  · intro hp hc
    unfold checkRateLimit
    by_cases hg : env.getOk <;> simp [hg, hp, Nat.not_le.mpr hc]

theorem rate_limit_fails_open_witness :
    (checkRateLimit ⟨fun _ => none, false, false⟩ 0 "ip").1.allowed = true :=
  (rate_limit_fails_open ⟨fun _ => none, false, false⟩ 0 "ip").1 rfl

theorem string_append_cancel {s a b : String} (h : s ++ a = s ++ b) : a = b := by
  have hd := congrArg String.data h
  simp only [String.data_append] at hd
  have h2 := List.append_cancel_left hd
  cases a
  cases b
  exact congrArg String.mk h2

theorem msgKey_inj (c : String) {a b : String} (h : msgKey c a = msgKey c b) :
    a = b := by
  unfold msgKey at h
  exact string_append_cancel h

theorem saveMessage_inv (c : String) (kept : List Message) (db : ChatDB) (m : Message)
    (hInv : ConvInv c kept db)
    (hlen : kept.length ≤ 100)
    (hm : m.conversationId = c)
    (hnd : ((kept ++ [m]).map fun x => x.id).Nodup) :
    ConvInv c (stepKept kept m) (saveMessage db m) ∧
    (saveMessage db m).lists (convKey c) =
      some ((stepKept kept m).map fun x => x.id) ∧
    (stepKept kept m).length ≤ 100 := by
  obtain ⟨hl, hr⟩ := hInv
  rw [List.map_append, List.nodup_append] at hnd
  obtain ⟨hnd1, _, hdisj⟩ := hnd
  have hnotin : m.id ∉ kept.map (fun x => x.id) :=
    fun hmem => hdisj hmem (by simp)
  simp only [saveMessage, ChatDB.putRec, hm, hl]
  have hcond : ((kept.map fun x => x.id) ++ [m.id]).length > 100 ↔
      kept.length + 1 > 100 := by simp
  by_cases hcap : kept.length + 1 > 100
  · -- eviction branch
    rw [if_pos (hcond.mpr hcap)]
    have hk100 : kept.length = 100 := by omega
    cases kept with
    | nil => simp at hk100
    | cons k0 kt =>
        have hm_ne_k0 : m.id ≠ k0.id := fun he => hnotin (by simp [he])
        have hk0_notin : k0.id ∉ kt.map (fun x => x.id) :=
          (List.nodup_cons.mp (by simpa using hnd1)).1
        have hm_notin_kt : m.id ∉ kt.map (fun x => x.id) :=
          fun he => hnotin (by simp [he])
        have hstep : stepKept (k0 :: kt) m = kt ++ [m] := by
          simp only [stepKept, if_pos hcap, List.tail_cons]
        rw [hstep]
        simp only [List.map_cons, List.cons_append, List.headD_cons, List.tail_cons]
        refine ⟨⟨?_, ?_⟩, ?_, ?_⟩
        · simp [ChatDB.putList, ChatDB.delRec]
        · intro id
          simp only [ChatDB.putList, ChatDB.delRec]
          by_cases h0 : id = k0.id
          · subst h0
            rw [if_pos rfl]
            symm
            apply List.find?_eq_none.mpr
            intro x hx
            simp only [beq_iff_eq]
            rcases List.mem_append.mp hx with hx' | hx'
            · exact fun he => hk0_notin (he ▸ List.mem_map_of_mem _ hx')
            · have hxm : x = m := by simpa using hx'
              subst hxm
              exact hm_ne_k0
          · by_cases h1 : id = m.id
            · subst h1
              rw [if_neg (fun he => hm_ne_k0 (msgKey_inj _ he)), if_pos rfl]
              symm
              rw [List.find?_append]
              have h2 : kt.find? (fun x => x.id == m.id) = none :=
                List.find?_eq_none.mpr fun x hx => by
                  simp only [beq_iff_eq]
                  exact fun he => hm_notin_kt (he ▸ List.mem_map_of_mem _ hx)
              rw [h2]
              simp
            · rw [if_neg (fun he => h0 (msgKey_inj _ he)),
                if_neg (fun he => h1 (msgKey_inj _ he)), hr id]
              rw [List.find?_cons_of_neg _ (by simp; exact fun he => h0 he.symm)]
              rw [List.find?_append]
              have h2 : [m].find? (fun x => x.id == id) = none :=
                List.find?_eq_none.mpr fun x hx => by
                  have hxm : x = m := by simpa using hx
                  subst hxm
                  simp only [beq_iff_eq]
                  exact fun he => h1 he.symm
              rw [h2, Option.or_none]
        · simp [ChatDB.putList, ChatDB.delRec]
        · have : kt.length = 99 := by simp at hk100; omega
          simp [this]
  · rw [if_neg (fun h => hcap (hcond.mp h))]
    have hstep : stepKept kept m = kept ++ [m] := by
      simp only [stepKept, if_neg hcap]
    rw [hstep]
    refine ⟨⟨?_, ?_⟩, ?_, ?_⟩
    · simp [ChatDB.putList]
    · intro id
      simp only [ChatDB.putList]
      by_cases h1 : id = m.id
      · subst h1
        rw [if_pos rfl]
        symm
        rw [List.find?_append]
        have h2 : kept.find? (fun x => x.id == m.id) = none :=
          List.find?_eq_none.mpr fun x hx => by
            simp only [beq_iff_eq]
            exact fun he => hnotin (he ▸ List.mem_map_of_mem _ hx)
        rw [h2]
        simp
      · rw [if_neg (fun he => h1 (msgKey_inj _ he)), hr id]
        rw [List.find?_append]
        have h2 : [m].find? (fun x => x.id == id) = none :=
          List.find?_eq_none.mpr fun x hx => by
            have hxm : x = m := by simpa using hx
            subst hxm
            simp only [beq_iff_eq]
            exact fun he => h1 he.symm
        rw [h2, Option.or_none]
    · simp [ChatDB.putList]
    · simp
      omega

theorem appendAll_inv (c : String) (ms : List Message) :
    ∀ (kept : List Message) (db : ChatDB),
    ConvInv c kept db →
    kept.length ≤ 100 →
    (((kept ++ ms).map fun x => x.id).Nodup) →
    (∀ m ∈ ms, m.conversationId = c) →
    ConvInv c (keptAfter kept ms) (ms.foldl saveMessage db) ∧
    (keptAfter kept ms).length ≤ 100 ∧
    (ms ≠ [] →
      (ms.foldl saveMessage db).lists (convKey c) =
        some ((keptAfter kept ms).map fun x => x.id)) := by
  induction ms with
  | nil =>
      intro kept db hInv hlen _ _
      exact ⟨hInv, hlen, fun h => absurd rfl h⟩
  | cons m rest ih =>
      intro kept db hInv hlen hnd hc
      have hnd_step : ((kept ++ [m]).map fun x => x.id).Nodup := by
        apply List.Nodup.sublist _ hnd
        apply List.Sublist.map
        apply List.Sublist.append_left
        exact List.cons_sublist_cons.mpr (List.nil_sublist rest)
      obtain ⟨hInv', hlists', hlen'⟩ :=
        saveMessage_inv c kept db m hInv hlen (hc m (by simp)) hnd_step
      have hsub : List.Sublist (stepKept kept m ++ rest) (kept ++ m :: rest) := by
        unfold stepKept
        split
        · have h1 : List.Sublist (kept.tail ++ [m]) (kept ++ [m]) :=
            (List.tail_sublist kept).append (List.Sublist.refl [m])
          have h2 := h1.append (List.Sublist.refl rest)
          simpa using h2
        · simp
      have hnd' : (((stepKept kept m) ++ rest).map fun x => x.id).Nodup :=
        List.Nodup.sublist (hsub.map fun x => x.id) hnd
      have hc' : ∀ x ∈ rest, x.conversationId = c := fun x hx => hc x (by simp [hx])
      obtain ⟨hI, hL, hS⟩ := ih (stepKept kept m) (saveMessage db m) hInv' hlen' hnd' hc'
      refine ⟨?_, ?_, ?_⟩
      · simpa [keptAfter] using hI
      · simpa [keptAfter] using hL
      · intro _
        cases rest with
        | nil => simpa [keptAfter] using hlists'
        | cons r rs =>
            simpa [keptAfter] using hS (by simp)

theorem keptAfter_eq_lastN (ms : List Message) :
    ∀ kept : List Message, kept.length ≤ 100 →
    keptAfter kept ms = lastN 100 (kept ++ ms) := by
  induction ms with
  | nil =>
      intro kept hlen
      simp [keptAfter, lastN, Nat.sub_eq_zero_of_le hlen]
  | cons m rest ih =>
      intro kept hlen
      have hstep_len : (stepKept kept m).length ≤ 100 := by
        unfold stepKept
        split
        · simp
          omega
        · simp
          omega
      rw [show keptAfter kept (m :: rest) = keptAfter (stepKept kept m) rest from rfl]
      rw [ih (stepKept kept m) hstep_len]
      unfold stepKept
      split
      · rename_i hcond
        cases kept with
        | nil => simp at hcond
        | cons k0 kt =>
            have h99 : kt.length = 99 := by
              simp at hcond hlen
              omega
            rw [show (k0 :: kt).tail = kt from rfl]
            rw [show (kt ++ [m]) ++ rest = kt ++ m :: rest by simp]
            rw [show (k0 :: kt) ++ m :: rest = k0 :: (kt ++ m :: rest) by simp]
            unfold lastN
            rw [show (k0 :: (kt ++ m :: rest)).length - 100 =
                ((kt ++ m :: rest).length - 100) + 1 from by simp [h99]; omega]
            rw [List.drop_succ_cons]
      · simp [List.append_assoc]

theorem filterMap_find?_self (kept : List Message)
    (hnd : (kept.map fun x => x.id).Nodup) :
    ((kept.map fun x => x.id).filterMap fun i => kept.find? fun x => x.id == i) =
      kept := by
  induction kept with
  | nil => rfl
  | cons k kt ih =>
      rw [List.map_cons] at hnd
      obtain ⟨hnotin, hnd'⟩ := List.nodup_cons.mp hnd
      rw [List.map_cons, List.filterMap_cons]
      have h1 : (k :: kt).find? (fun x => x.id == k.id) = some k :=
        List.find?_cons_of_pos _ (by simp)
      rw [h1]
      have h2 : (kt.map fun x => x.id).filterMap
            (fun i => (k :: kt).find? fun x => x.id == i) =
          (kt.map fun x => x.id).filterMap (fun i => kt.find? fun x => x.id == i) := by
        apply List.filterMap_congr
        intro i hi
        rw [List.find?_cons_of_neg _ (by
          simp only [beq_iff_eq]
          exact fun he => hnotin (he ▸ hi))]
      rw [h2, ih hnd']

/-- C1: appending N > 100 messages (same conversation, distinct ids,
non-decreasing timestamps) to an empty store leaves `read` returning
exactly the 100 most-recently appended messages in append order, and the
record of every evicted message id is no longer retrievable (FIFO eviction
at capacity 100). -/
theorem fifo_eviction_at_capacity (c : String) (ms : List Message)
    (hN : 100 < ms.length)
    (hc : ∀ m ∈ ms, m.conversationId = c)
    (hnd : (ms.map fun x => x.id).Nodup)
    (hts : ms.Pairwise fun a b => a.timestamp ≤ b.timestamp) :
    getConversationMessages (ms.foldl saveMessage emptyDB) c = lastN 100 ms ∧
    (lastN 100 ms).length = 100 ∧
    ∀ m ∈ ms.take (ms.length - 100),
      (ms.foldl saveMessage emptyDB).recs (msgKey c m.id) = none := by
  have base : ConvInv c [] emptyDB :=
    ⟨by simp [emptyDB], fun id => by simp [emptyDB]⟩
  obtain ⟨⟨hIl, hIr⟩, hLen, hSome⟩ := appendAll_inv c ms [] emptyDB base (by simp)
    (by simpa using hnd) hc
  have hkeq : keptAfter [] ms = lastN 100 ms := by
    simpa using keptAfter_eq_lastN ms [] (by simp)
  rw [hkeq] at hIr
  have hms_ne : ms ≠ [] := by
    intro h
    rw [h] at hN
    simp at hN
  have hlists := hSome hms_ne
  rw [hkeq] at hlists
  have hnd_last : ((lastN 100 ms).map fun x => x.id).Nodup :=
    List.Nodup.sublist ((List.drop_sublist _ _).map _) hnd
  have hlast_len : (lastN 100 ms).length = 100 := by
    simp [lastN]
    omega
  refine ⟨?_, hlast_len, ?_⟩
  · simp only [getConversationMessages, hlists]
    simp only [hIr]
    rw [filterMap_find?_self _ hnd_last]
    apply List.mergeSort_of_sorted
    have hts' : (lastN 100 ms).Pairwise fun a b => a.timestamp ≤ b.timestamp :=
      hts.sublist (List.drop_sublist _ _)
    exact hts'.imp fun h => decide_eq_true h
  · intro m hm
    rw [hIr]
    apply List.find?_eq_none.mpr
    intro x hx
    simp only [beq_iff_eq]
    intro heq
    have hnd2 : ((ms.take (ms.length - 100) ++ ms.drop (ms.length - 100)).map
        fun x => x.id).Nodup := by
      rw [List.take_append_drop]
      exact hnd
    rw [List.map_append, List.nodup_append] at hnd2
    obtain ⟨_, _, hdisj⟩ := hnd2
    exact hdisj (List.mem_map_of_mem _ hm)
      (heq ▸ List.mem_map_of_mem (fun x => x.id) hx)

set_option maxRecDepth 4000 in
theorem fifo_eviction_at_capacity_witness :
    getConversationMessages (msgs101.foldl saveMessage emptyDB) "conv1" =
      lastN 100 msgs101 ∧
    (msgs101.foldl saveMessage emptyDB).recs (msgKey "conv1" "m0") = none := by
  have h := fifo_eviction_at_capacity "conv1" msgs101 (by decide) (by decide)
    (by decide) (by decide)
  exact ⟨h.1, h.2.2 (mkMsg 0) (by decide)⟩

/-- C3 counterexample: for a history of 25 messages the upstream call is
given 22 messages (1 system + 20 history + 1 current), not 23 as the claim
states. -/
theorem prompt_size_not_23 : (buildMessages "q" hist25).length ≠ 23 := by
  decide

/-- C3 (amended): given a history of at least 20 messages (in particular
25), the upstream call is given exactly 22 messages: the fixed system
instruction first, then the most recent 20 history messages (oldest of
those 20 first, i.e. the drop of all but the last 20), then the current
user message last. -/
theorem prompt_forwards_last_twenty (msg : String) (history : List Message)
    (h : 20 ≤ history.length) :
    buildMessages msg history =
      ⟨"system", systemPrompt⟩ ::
        ((history.drop (history.length - 20)).map
            fun m => ChatMsg.mk m.role.toLower m.content) ++
          [⟨"user", msg⟩] ∧
    (buildMessages msg history).length = 22 := by
  refine ⟨rfl, ?_⟩
  simp only [buildMessages, lastN, List.length_cons, List.length_append,
    List.length_map, List.length_drop, List.length_nil]
  omega

theorem prompt_forwards_last_twenty_witness :
    (buildMessages "q" hist25).length = 22 :=
  (prompt_forwards_last_twenty "q" hist25 (by decide)).2

/-- C7 counterexample: an input whose model string is not a DeepSeek model
identifier and whose `maxTokens` is 0 (outside `[1,4000]`) passes
validation, and a `sendMessage` run with it posts one request upstream
(carrying that model and `max_tokens = 0`): it is not rejected before the
network call. -/
theorem invalid_range_not_rejected :
    (validateMessageInput badRangeInput).valid = true ∧
    (sendMessage ⟨emptyDB, emptyRL⟩ "ip" 0 badRangeInput "u1" "a1" okApi).2.2 =
      [⟨"gpt-4o", buildMessages "hi" [], some (mkRat 7 10), some 0⟩] := by
  constructor
  · decide
  · rfl

/-- C7 (amended): validation rejects a non-null temperature outside
`[0,2]` and a non-null, non-zero `maxTokens` outside `[1,4000]`; the
temperature `-0.5` is among the rejected values. (The model identifier is
not validated at all, and `maxTokens = 0` escapes the range check because
the code guards it behind JavaScript truthiness.) -/
theorem validate_rejects_out_of_range (input : SendMessageInput)
    (h : (∃ t, input.temperature = some t ∧ (t < 0 ∨ 2 < t)) ∨
         (∃ n, input.maxTokens = some n ∧ n ≠ 0 ∧ (n < 1 ∨ 4000 < n))) :
    (validateMessageInput input).valid = false := by
  unfold validateMessageInput
  rcases h with ⟨t, ht, hr⟩ | ⟨n, hn, hne, hr⟩
  · have hne : t ≠ 0 := by
      rintro rfl
      rcases hr with h | h <;> norm_num at h
    rw [ht]
    split_ifs <;> simp_all
  · rw [hn]
    split_ifs <;> simp_all

theorem runCalls_append (ip : String) (env : RLEnv) (l₁ l₂ : List Nat) :
    runCalls env ip (l₁ ++ l₂) =
      ((runCalls env ip l₁).1 ++ (runCalls (runCalls env ip l₁).2 ip l₂).1,
       (runCalls (runCalls env ip l₁).2 ip l₂).2) := by
  induction l₁ generalizing env with
  | nil => simp [runCalls]
  | cons t ts ih => simp [runCalls, ih]

theorem runCalls_inv (ip : String) (ts : List Nat) :
    ∀ (k tprev : Nat) (env : RLEnv),
    env.getOk = true → env.putOk = true →
    env.data (rateKey ip) = some ⟨k, tprev + 60⟩ →
    List.Chain' (fun a b => a ≤ b ∧ b < a + 60) (tprev :: ts) →
    k + ts.length ≤ 30 →
    ((runCalls env ip ts).1.map fun r => r.allowed) = List.replicate ts.length true ∧
    ((runCalls env ip ts).1.map fun r => r.resetTime) = List.replicate ts.length none ∧
    (runCalls env ip ts).2.getOk = true ∧
    (runCalls env ip ts).2.putOk = true ∧
    (runCalls env ip ts).2.data (rateKey ip) =
      some ⟨k + ts.length, ts.getLastD tprev + 60⟩ := by
  induction ts with
  | nil =>
      intro k tprev env hg hp hd _ _
      simp [runCalls, hg, hp, hd]
  | cons t ts' ih =>
      intro k tprev env hg hp hd hch hlen
      rw [List.chain'_cons] at hch
      obtain ⟨⟨hle, hlt⟩, hch'⟩ := hch
      have hcount : (env.read t (rateKey ip)).getD 0 = k := by
        simp [RLEnv.read, hd, if_pos hlt]
      have hklt : ¬ (k ≥ 30) := by
        simp only [List.length_cons] at hlen
        omega
      have hcrl : checkRateLimit env t ip =
          (⟨true, some (30 - k - 1), none⟩,
           { env with data := fun k' =>
               if k' = rateKey ip then some (RLEntry.mk (k + 1) (t + 60))
               else env.data k' }) := by
        simp [checkRateLimit, hg, hp, hcount, hklt]
      have hlen' : (k + 1) + ts'.length ≤ 30 := by
        simp only [List.length_cons] at hlen
        omega
      obtain ⟨h1, h2, h3, h4, h5⟩ := ih (k + 1) t
        { env with data := fun k' =>
            if k' = rateKey ip then some (RLEntry.mk (k + 1) (t + 60))
            else env.data k' }
        hg hp (by simp) hch' hlen'
      have hrun : runCalls env ip (t :: ts') =
          (RateLimitResult.mk true (some (30 - k - 1)) none ::
            (runCalls
              { env with data := fun k' =>
                  if k' = rateKey ip then some (RLEntry.mk (k + 1) (t + 60))
                  else env.data k' }
              ip ts').1,
           (runCalls
              { env with data := fun k' =>
                  if k' = rateKey ip then some (RLEntry.mk (k + 1) (t + 60))
                  else env.data k' }
              ip ts').2) := by
        simp [runCalls, hcrl]
      rw [hrun]
      refine ⟨?_, ?_, h3, h4, ?_⟩
      · simp [h1, List.replicate_succ]
      · simp [h2, List.replicate_succ]
      · simp only [List.length_cons, List.getLastD_cons]
        have heq : k + 1 + ts'.length = k + (ts'.length + 1) := by omega
        rw [heq] at h5
        exact h5

/-- C2 counterexample: a client makes 30 checks at instant 0 and a 31st at
instant 10, all inside one window. The 31st is rejected, but the rejection
carries `resetTime = 60` — the fixed window length — while the stored
counter expires at instant 60, so the window's remaining lifetime at that
moment is `60 - 10 = 50 ≠ 60`: the reset-time is a generic constant, not
the remaining lifetime. -/
theorem rate_limit_reset_time_constant :
    ((runCalls emptyRL "ip" (List.replicate 30 0 ++ [10])).1.map fun r => r.allowed) =
      List.replicate 30 true ++ [false] ∧
    ((runCalls emptyRL "ip" (List.replicate 30 0 ++ [10])).1.map fun r => r.resetTime) =
      List.replicate 30 none ++ [some 60] ∧
    (runCalls emptyRL "ip" (List.replicate 30 0 ++ [10])).2.data (rateKey "ip") =
      some ⟨30, 60⟩ ∧
    (60 : Nat) ≠ 60 - 10 := by
  refine ⟨by decide, by decide, by decide, by decide⟩

/-- C2 (amended): for one identity inside a single live window (each call
at or after the previous one and before the previous call's 60-unit expiry),
every one of the first 30 checks is allowed, and the 31st is rejected with
reset-time `60` — the full fixed window length, a positive constant — not
the window's remaining lifetime at that moment. -/
theorem rate_limit_caps_at_thirty (ip : String) (t0 tl : Nat) (mid : List Nat)
    (hmid : mid.length = 29)
    (hch : List.Chain' (fun a b => a ≤ b ∧ b < a + 60) (t0 :: mid ++ [tl])) :
    ((runCalls emptyRL ip (t0 :: mid ++ [tl])).1.map fun r => r.allowed) =
      List.replicate 30 true ++ [false] ∧
    ((runCalls emptyRL ip (t0 :: mid ++ [tl])).1.map fun r => r.resetTime) =
      List.replicate 30 none ++ [some 60] := by
  have h0 : checkRateLimit emptyRL t0 ip =
      (⟨true, some 29, none⟩,
       { emptyRL with data := fun k' =>
           if k' = rateKey ip then some (RLEntry.mk 1 (t0 + 60)) else none }) := rfl
  have hch2 : List.Chain' (fun a b => a ≤ b ∧ b < a + 60) ((t0 :: mid) ++ [tl]) := by
    simpa using hch
  rw [List.chain'_append] at hch2
  obtain ⟨hch1, _, hlink⟩ := hch2
  have hlk := hlink (mid.getLastD t0) (by
      rw [List.getLast?_cons]
      simp [List.getLastD_eq_getLast?]) tl rfl
  obtain ⟨h1, h2, h3, h4, h5⟩ := runCalls_inv ip mid 1 t0
    { emptyRL with data := fun k' =>
        if k' = rateKey ip then some (RLEntry.mk 1 (t0 + 60)) else none }
    rfl rfl (by simp) hch1 (by omega)
  have hlast : checkRateLimit (runCalls
      { emptyRL with data := fun k' =>
          if k' = rateKey ip then some (RLEntry.mk 1 (t0 + 60)) else none } ip mid).2
        tl ip =
      (⟨false, none, some 60⟩, (runCalls
        { emptyRL with data := fun k' =>
            if k' = rateKey ip then some (RLEntry.mk 1 (t0 + 60)) else none } ip mid).2) := by
    have hread : ((runCalls
        { emptyRL with data := fun k' =>
            if k' = rateKey ip then some (RLEntry.mk 1 (t0 + 60)) else none } ip mid).2.read
          tl (rateKey ip)).getD 0 = 30 := by
      simp only [RLEnv.read, h5]
      rw [if_pos hlk.2]
      simp [hmid]
    simp [checkRateLimit, h3, hread]
  have hsplit : runCalls emptyRL ip (t0 :: mid ++ [tl]) =
      (RateLimitResult.mk true (some 29) none ::
        ((runCalls
            { emptyRL with data := fun k' =>
                if k' = rateKey ip then some (RLEntry.mk 1 (t0 + 60)) else none }
            ip mid).1 ++
          [RateLimitResult.mk false none (some 60)]),
       (runCalls
          { emptyRL with data := fun k' =>
              if k' = rateKey ip then some (RLEntry.mk 1 (t0 + 60)) else none }
          ip mid).2) := by
    simp [runCalls, h0, runCalls_append, hlast]
  rw [hsplit]
  constructor
  · simp [h1, hmid, show (30 : Nat) = 29 + 1 from rfl, List.replicate_succ]
  · simp [h2, hmid, show (30 : Nat) = 29 + 1 from rfl, List.replicate_succ]

theorem chain_of_zeros :
    ∀ n : Nat, List.Chain' (fun a b : Nat => a ≤ b ∧ b < a + 60) (List.replicate n 0)
  | 0 => by simp
  | 1 => by simp
  | n + 2 => by
      rw [List.replicate_succ, List.replicate_succ]
      rw [List.chain'_cons]
      exact ⟨⟨Nat.le_refl 0, by omega⟩,
        by rw [← List.replicate_succ]; exact chain_of_zeros (n + 1)⟩

theorem rate_limit_caps_at_thirty_witness :
    ((runCalls emptyRL "ip" (0 :: List.replicate 29 0 ++ [0])).1.map
        fun r => r.allowed) = List.replicate 30 true ++ [false] :=
  (rate_limit_caps_at_thirty "ip" 0 0 (List.replicate 29 0) (by simp)
    (by
      have h : (0 :: List.replicate 29 0 ++ [0] : List Nat) = List.replicate 31 0 := by
        decide
      rw [h]
      exact chain_of_zeros 31)).1

theorem saveMessage_lists_sub (db : ChatDB) (m : Message) :
    ∃ l', (saveMessage db m).lists (convKey m.conversationId) = some l' ∧
      ∀ x ∈ l', x ∈ (db.lists (convKey m.conversationId)).getD [] ++ [m.id] := by
  unfold saveMessage
  simp only [ChatDB.putRec]
  by_cases hl :
      ((db.lists (convKey m.conversationId)).getD [] ++ [m.id]).length > 100
  · rw [if_pos hl]
    refine ⟨((db.lists (convKey m.conversationId)).getD [] ++ [m.id]).tail,
      by simp [ChatDB.putList, ChatDB.delRec], ?_⟩
    intro y hy
    exact List.mem_of_mem_tail hy
  · rw [if_neg hl]
    exact ⟨(db.lists (convKey m.conversationId)).getD [] ++ [m.id],
      by simp [ChatDB.putList], fun y hy => hy⟩

theorem saveMessage_rec_fresh (db : ChatDB) (m : Message)
    (h : m.id ∉ (db.lists (convKey m.conversationId)).getD []) :
    (saveMessage db m).recs (msgKey m.conversationId m.id) = some m := by
  unfold saveMessage
  simp only [ChatDB.putRec]
  by_cases hl :
      ((db.lists (convKey m.conversationId)).getD [] ++ [m.id]).length > 100
  · cases hc : (db.lists (convKey m.conversationId)).getD [] with
    | nil => rw [hc] at hl; simp at hl
    | cons x xs =>
        rw [hc] at hl
        rw [if_pos hl]
        have hne : msgKey m.conversationId m.id ≠ msgKey m.conversationId x := by
          intro he
          rw [hc] at h
          exact h (by rw [msgKey_inj _ he]; exact List.mem_cons_self x xs)
        simp [ChatDB.putList, ChatDB.delRec, hne]
  · rw [if_neg hl]
    simp [ChatDB.putList]

/-- C4 (amended): when input validation fails, `sendMessage` returns a
failure without touching the conversation store and without any upstream
call; the rate-limit counter, however, has already been consulted (it is
read and incremented before validation runs). -/
theorem invalid_input_skips_store_and_upstream
    (st : SendState) (clientIP : String) (now : Nat) (input : SendMessageInput)
    (userId aiId : String) (api : DSRequest → Except String DSResponse)
    (hval : (validateMessageInput input).valid = false) :
    (sendMessage st clientIP now input userId aiId api).1.success = false ∧
    (sendMessage st clientIP now input userId aiId api).2.1.chat = st.chat ∧
    (sendMessage st clientIP now input userId aiId api).2.2 = [] := by
  by_cases hrl : (checkRateLimit st.rl now clientIP).1.allowed <;>
    simp [sendMessage, hrl, hval]

theorem invalid_input_skips_store_and_upstream_witness :
    (sendMessage ⟨emptyDB, emptyRL⟩ "ip" 0 ⟨"", "cv", "deepseek-chat", none, none⟩
        "u1" "a1" okApi).1.success = false ∧
    (sendMessage ⟨emptyDB, emptyRL⟩ "ip" 0 ⟨"", "cv", "deepseek-chat", none, none⟩
        "u1" "a1" okApi).2.1.chat = emptyDB ∧
    (sendMessage ⟨emptyDB, emptyRL⟩ "ip" 0 ⟨"", "cv", "deepseek-chat", none, none⟩
        "u1" "a1" okApi).2.2 = [] :=
  invalid_input_skips_store_and_upstream ⟨emptyDB, emptyRL⟩ "ip" 0
    ⟨"", "cv", "deepseek-chat", none, none⟩ "u1" "a1" okApi (by decide)

/-- C4 counterexample: an input whose message has 2001 characters fails
validation, yet after `sendMessage` the rate counter key holds count 1
where it held nothing before — the rate-limit store is read and mutated
before validation, so invalid input does not short-circuit before touching
the RateLimiter. -/
theorem invalid_input_still_hits_rate_counter :
    (validateMessageInput overlongInput).valid = false ∧
    (sendMessage ⟨emptyDB, emptyRL⟩ "ip" 0 overlongInput "u1" "a1" okApi).2.1.rl.data
        (rateKey "ip") = some ⟨1, 60⟩ ∧
    emptyRL.data (rateKey "ip") = none := by
  have hne : overlongInput.message ≠ "" := by
    intro hEq
    have h3 : (List.replicate 2001 'a').length = ([] : List Char).length :=
      congrArg (fun s : String => s.data.length) hEq
    rw [List.length_replicate, List.length_nil] at h3
    norm_num at h3
  have hlen : overlongInput.message.length = 2001 := by
    show (List.replicate 2001 'a').length = 2001
    simp only [List.length_replicate]
  have hv : (validateMessageInput overlongInput).valid = false := by
    unfold validateMessageInput
    rw [if_neg hne, if_pos (by rw [hlen]; norm_num)]
  have hrl : (checkRateLimit emptyRL 0 "ip").1.allowed = true := rfl
  refine ⟨hv, ?_, rfl⟩
  simp only [sendMessage, hrl, hv]
  rfl

/-- C5 (amended): on a successful `sendMessage` (rate allowed, input
valid, upstream ok), the returned and persisted assistant message carries
the request's model identifier, and its token count is the upstream
usage's completion-token count when usage is present and 0 — not a
length-based estimate — when usage is absent. -/
theorem assistant_message_model_and_tokens
    (st : SendState) (clientIP : String) (now : Nat) (input : SendMessageInput)
    (userId aiId : String) (resp : DSResponse)
    (hrl : (checkRateLimit st.rl now clientIP).1.allowed = true)
    (hval : (validateMessageInput input).valid = true)
    (hau : aiId ≠ userId)
    (hai : aiId ∉ (st.chat.lists (convKey input.conversationId)).getD []) :
    (sendMessage st clientIP now input userId aiId
        (fun _ => Except.ok resp)).1.success = true ∧
    (sendMessage st clientIP now input userId aiId
        (fun _ => Except.ok resp)).1.message =
      some ⟨aiId, resp.content, "ASSISTANT", now, input.conversationId,
        some input.model, (resp.usage.map fun u => u.completion_tokens).getD 0⟩ ∧
    (sendMessage st clientIP now input userId aiId
        (fun _ => Except.ok resp)).2.1.chat.recs (msgKey input.conversationId aiId) =
      some ⟨aiId, resp.content, "ASSISTANT", now, input.conversationId,
        some input.model, (resp.usage.map fun u => u.completion_tokens).getD 0⟩ := by
  obtain ⟨l', hl', hsub⟩ := saveMessage_lists_sub st.chat
    ⟨userId, input.message, "USER", now, input.conversationId, none,
      estimateTokens input.message⟩
  have hfresh : aiId ∉ ((saveMessage st.chat
      ⟨userId, input.message, "USER", now, input.conversationId, none,
        estimateTokens input.message⟩).lists (convKey input.conversationId)).getD [] := by
    rw [hl']
    intro hmem
    rcases List.mem_append.mp (hsub aiId hmem) with hmem' | hmem'
    · exact hai hmem'
    · exact hau (by simpa using hmem')
  have hrec := saveMessage_rec_fresh (saveMessage st.chat
      ⟨userId, input.message, "USER", now, input.conversationId, none,
        estimateTokens input.message⟩)
    ⟨aiId, resp.content, "ASSISTANT", now, input.conversationId,
      some input.model, (resp.usage.map fun u => u.completion_tokens).getD 0⟩
    hfresh
  refine ⟨?_, ?_, ?_⟩ <;> simp [sendMessage, hrl, hval, hrec]

theorem assistant_message_model_and_tokens_witness :
    (sendMessage ⟨emptyDB, emptyRL⟩ "ip" 0 okInput "u1" "a1"
        (fun _ => Except.ok ⟨"hello", some ⟨5, 3, 8⟩⟩)).1.message =
      some ⟨"a1", "hello", "ASSISTANT", 0, "cv", some "deepseek-chat", 3⟩ :=
  (assistant_message_model_and_tokens ⟨emptyDB, emptyRL⟩ "ip" 0 okInput "u1" "a1"
    ⟨"hello", some ⟨5, 3, 8⟩⟩ rfl (by decide) (by decide) (by simp [emptyDB])).2.1

/-- C5 counterexample: when the upstream response carries no usage object,
the persisted assistant message's token count is 0, not the length-based
estimate of the assistant content (`estimateTokens "abc" = 2`). -/
theorem assistant_tokens_not_estimated :
    ((sendMessage ⟨emptyDB, emptyRL⟩ "ip" 0 okInput "u1" "a1"
        (fun _ => Except.ok ⟨"abc", none⟩)).1.message.map fun m => m.tokens) =
      some 0 ∧
    estimateTokens "abc" = 2 ∧ (0 : Nat) ≠ 2 :=
  ⟨rfl, rfl, by decide⟩

theorem validate_rejects_out_of_range_witness :
    (validateMessageInput
      ⟨"hi", "cv", "deepseek-chat", some (mkRat (-1) 2), none⟩).valid = false :=
  validate_rejects_out_of_range _
    (Or.inl ⟨mkRat (-1) 2, rfl, Or.inl (by decide)⟩)

end Worker
